import Mathlib

/-
Verification of the error-propagation module `reflred/err1d.py`.

The module computes (value, variance) pairs for derived measured
quantities.  All numpy operations involved are elementwise over arrays,
so each operator is embedded per element:

* operations that use only field arithmetic (`add`, `sub`, `mul`, `div`,
  their in-place variants, and `interp`) are embedded over `ℚ`, exactly
  and executably;
* operations that use transcendental functions (`exp`, `log`, `sin`,
  `cos`, `arctan`, `pow` with real exponent, `pow2`) are embedded over
  `ℝ` with Mathlib's real functions.

The in-place variants mutate numpy array buffers.  They are embedded by
explicit state passing: each definition is the source's assignment
sequence, one `let` per assignment, where an assignment through an alias
(for example `T = X` followed by `T **= 2`) is recorded as an update of
the aliased buffer.  Each in-place definition returns the final contents
of every operand buffer, so that both the returned values and the frame
effects on the other buffers can be stated.

Functions of the source that raise on every call (`tan` uses `np.sec`,
which does not exist in numpy; `arcsin` and `arccos` use the undefined
name `x`; `arctan2` divides the two-element tuple returned by `div` by a
scalar) are embedded as `Option`-valued functions returning `none`.
-/

namespace err1d

/-! ### Out-of-place arithmetic operators (exact, over `ℚ`) -/

/-- Embedding of `div` (err1d.py lines 41-54), per element.  The source
computes `Z = X/Y; varZ = Z**2; varZ *= varY; varZ += varX; T = Y**2;
varZ /= T`. -/
def div (X varX Y varY : ℚ) : ℚ × ℚ :=
  let Z := X / Y           -- Z = X/Y
  let varZ := Z ^ 2        -- varZ = Z**2
  let varZ1 := varZ * varY -- varZ *= varY
  let varZ2 := varZ1 + varX -- varZ += varX
  let T := Y ^ 2           -- T = Y**2
  let varZ3 := varZ2 / T   -- varZ /= T
  (Z, varZ3)

/-- Embedding of `mul` (err1d.py lines 56-69), per element:
`Z = X * Y; varZ = Y**2 * varX + X**2 * varY`. -/
def mul (X varX Y varY : ℚ) : ℚ × ℚ :=
  (X * Y, Y ^ 2 * varX + X ^ 2 * varY)

/-- Embedding of `sub` (err1d.py lines 71-75): `Z = X - Y; varZ = varX + varY`. -/
def sub (X varX Y varY : ℚ) : ℚ × ℚ :=
  (X - Y, varX + varY)

/-- Embedding of `add` (err1d.py lines 77-81): `Z = X + Y; varZ = varX + varY`. -/
def add (X varX Y varY : ℚ) : ℚ × ℚ :=
  (X + Y, varX + varY)

/-! ### In-place variants (buffer-state embedding, over `ℚ`)

Each definition returns the final contents of the buffers
`(X, varX, Y, varY)` after the source's assignment sequence, evaluated
with numpy ndarray semantics (augmented assignments through any alias of
a buffer update that buffer in place). -/

/-- Embedding of `div_inplace` (err1d.py lines 152-164).  Note that
`T = Y` makes `T` an alias of the `Y` buffer, so `T **= 2` overwrites
`Y` with `Y**2`. -/
def div_inplace (X varX Y varY : ℚ) : ℚ × ℚ × ℚ × ℚ :=
  let X1 := X / Y           -- X /= Y       (X buffer now holds Z)
  let T := X1 ^ 2           -- T = X**2     (fresh buffer with Z**2)
  let T1 := T * varY        -- T *= varY
  let varX1 := varX + T1    -- varX += T
  -- del T; T = Y           (T now aliases the Y buffer)
  let Y1 := Y ^ 2           -- T **= 2      (Y buffer now holds Y**2)
  let varX2 := varX1 / Y1   -- varX /= T
  (X1, varX2, Y1, varY)

/-- Embedding of `mul_inplace` (err1d.py lines 166-178).  Here `T = X`
makes `T` an alias of the `X` buffer, so `T **= 2` and `T *= varY`
overwrite `X` before the final `X *= Y` runs. -/
def mul_inplace (X varX Y varY : ℚ) : ℚ × ℚ × ℚ × ℚ :=
  let T := Y ^ 2            -- T = Y**2     (fresh buffer)
  let varX1 := varX * T     -- varX *= T
  -- del T; T = X           (T now aliases the X buffer)
  let X1 := X ^ 2           -- T **= 2      (X buffer now holds X**2)
  let X2 := X1 * varY       -- T *= varY    (X buffer now holds X**2 * varY)
  let varX2 := varX1 + X2   -- varX += T
  let X3 := X2 * Y          -- X *= Y       (X buffer, already clobbered)
  (X3, varX2, Y, varY)

/-- Embedding of `sub_inplace` (err1d.py lines 180-186):
`X -= Y; varX += varY`. -/
def sub_inplace (X varX Y varY : ℚ) : ℚ × ℚ × ℚ × ℚ :=
  (X - Y, varX + varY, Y, varY)

/-- Embedding of `add_inplace` (err1d.py lines 188-194):
`X += Y; varX += varY`. -/
def add_inplace (X varX Y varY : ℚ) : ℚ × ℚ × ℚ × ℚ :=
  (X + Y, varX + varY, Y, varY)

/-! ### Interpolation (exact, over `ℚ`) -/

/-- Total list indexing with Python-style junk out of range; models
`l[k]` for the in-range accesses the source performs. -/
def nth (l : List ℚ) (k : ℕ) : ℚ := l.getD k 0

/-- Embedding of `np.searchsorted(a, x, side="right")` for a sorted
array `a`: the rightmost insertion point, which for sorted input is the
number of entries `≤ x`. -/
def searchsorted_right (a : List ℚ) (x : ℚ) : ℕ :=
  a.countP (fun y => decide (y ≤ x))

/-- Embedding of `interp` (err1d.py lines 14-39) for one query point
`x` (the numpy code runs this computation elementwise over the query
array `X`, including the masked assignments from `left`/`right`).
The source computes
`idx = np.searchsorted(Xp[1:-1], X, side="right")`,
`p = (Xp[idx+1]-X)/(Xp[idx+1]-Xp[idx])`,
`F = p*Fp[idx] + (1-p)*Fp[idx+1]`,
`varF = p**2*varFp[idx] + (1-p)**2*varFp[idx+1]`,
then overwrites entries with `X < Xp[0]` by `left` (default
`Fp[0], varFp[0]`) and entries with `X > Xp[-1]` by `right` (default
`Fp[-1], varFp[-1]`, applied last). -/
def interp (x : ℚ) (Xp Fp varFp : List ℚ)
    (left right : Option (ℚ × ℚ)) : ℚ × ℚ :=
  let idx := searchsorted_right ((Xp.drop 1).dropLast) x
  let p := (nth Xp (idx+1) - x) / (nth Xp (idx+1) - nth Xp idx)
  let F := p * nth Fp idx + (1 - p) * nth Fp (idx+1)
  let varF := p ^ 2 * nth varFp idx + (1 - p) ^ 2 * nth varFp (idx+1)
  let lv := left.getD (nth Fp 0, nth varFp 0)
  let rv := right.getD (nth Fp (Fp.length - 1), nth varFp (varFp.length - 1))
  if nth Xp (Xp.length - 1) < x then rv
  else if x < nth Xp 0 then lv
  else (F, varF)

end err1d

noncomputable section

namespace err1d

/-! ### Transcendental operators (over `ℝ`) -/

/-- Embedding of `exp` (err1d.py lines 83-87):
`Z = np.exp(X); varZ = varX * Z**2`. -/
def exp (X varX : ℝ) : ℝ × ℝ :=
  (Real.exp X, varX * Real.exp X ^ 2)

/-- Embedding of `log` (err1d.py lines 89-93):
`Z = np.log(X); varZ = varX / X**2`. -/
def log (X varX : ℝ) : ℝ × ℝ :=
  (Real.log X, varX / X ^ 2)

/-- Embedding of `sin` (err1d.py lines 95-96):
`np.sin(X), varX*np.cos(X)**2`. -/
def sin (X varX : ℝ) : ℝ × ℝ :=
  (Real.sin X, varX * Real.cos X ^ 2)

/-- Embedding of `cos` (err1d.py lines 97-98):
`np.cos(X), varX*np.sin(X)**2`. -/
def cos (X varX : ℝ) : ℝ × ℝ :=
  (Real.cos X, varX * Real.sin X ^ 2)

/-- Embedding of `tan` (err1d.py lines 99-100):
`np.tan(X), varX*np.sec(X)**2`.  numpy has no attribute `sec`, so every
call raises `AttributeError` before returning; modelled as `none`. -/
def tan (X varX : ℝ) : Option (ℝ × ℝ) := none

/-- Embedding of `arcsin` (err1d.py lines 101-102):
`np.arcsin(x), varX/(1-X**2)`.  The name `x` (lower case) is undefined
in the module, so every call raises `NameError` before returning;
modelled as `none`. -/
def arcsin (X varX : ℝ) : Option (ℝ × ℝ) := none

/-- Embedding of `arccos` (err1d.py lines 103-104):
`np.arccos(x), varX/(1-X**2)`.  The name `x` (lower case) is undefined
in the module, so every call raises `NameError` before returning;
modelled as `none`. -/
def arccos (X varX : ℝ) : Option (ℝ × ℝ) := none

/-- Embedding of `arctan` (err1d.py lines 105-106):
`np.arctan(X), varX/(1+X**2)**2`. -/
def arctan (X varX : ℝ) : ℝ × ℝ :=
  (Real.arctan X, varX / (1 + X ^ 2) ^ 2)

/-- Embedding of `arctan2` (err1d.py lines 108-111).  The variance line
`varZ = div(X,varX, Y,varY)/(1+(X/Y)**2)**2` divides the two-element
tuple returned by `div` by a scalar-like quantity: for scalar operands
this raises `TypeError`, and for array operands numpy coerces the tuple
into a stacked `(2, n)` array, so in neither case does the call produce
a well-formed `(value, variance)` pair; modelled as `none`. -/
def arctan2 (X varX Y varY : ℝ) : Option (ℝ × ℝ) := none

/-- Embedding of `pow` (err1d.py lines 120-132), with the float scalar
exponent modelled as a real number and `X**n` as the real power
`Real.rpow`.  The source computes `Z = X**n; varZ = varX/X; varZ /= X;
varZ *= Z; varZ *= Z; varZ *= n**2`. -/
def pow (X varX n : ℝ) : ℝ × ℝ :=
  let Z := Real.rpow X n   -- Z = X**n
  let varZ := varX / X     -- varZ = varX/X
  let varZ1 := varZ / X    -- varZ /= X
  let varZ2 := varZ1 * Z   -- varZ *= Z
  let varZ3 := varZ2 * Z   -- varZ *= Z
  let varZ4 := varZ3 * n ^ 2 -- varZ *= n**2
  (Z, varZ4)

/-- Embedding of `pow2` (err1d.py lines 134-150), with `X**Y` as the
real power `Real.rpow` and `np.log` as the real logarithm.  The source
computes `Z = X**Y; varZ = varX/X; varZ *= Y; varZ *= varZ;
T = np.log(X); T *= varY; T *= T; varZ += T; varZ *= Z; varZ *= Z`. -/
def pow2 (X varX Y varY : ℝ) : ℝ × ℝ :=
  let Z := Real.rpow X Y     -- Z = X**Y
  let varZ := varX / X       -- varZ = varX/X
  let varZ1 := varZ * Y      -- varZ *= Y
  let varZ2 := varZ1 * varZ1 -- varZ *= varZ
  let T := Real.log X        -- T = np.log(X)
  let T1 := T * varY         -- T *= varY
  let T2 := T1 * T1          -- T *= T
  let varZ3 := varZ2 + T2    -- varZ += T
  let varZ4 := varZ3 * Z     -- varZ *= Z
  let varZ5 := varZ4 * Z     -- varZ *= Z
  (Z, varZ5)

/-- Embedding of `pow_inplace` (err1d.py lines 196-208), buffer-state
form: `varX /= X; varX /= X; X **= n; varX *= X; varX *= X;
varX *= n**2`, returning the final `(X, varX)` buffers. -/
def pow_inplace (X varX n : ℝ) : ℝ × ℝ :=
  let varX1 := varX / X      -- varX /= X
  let varX2 := varX1 / X     -- varX /= X
  let X1 := Real.rpow X n    -- X **= n   (X buffer now holds Z)
  let varX3 := varX2 * X1    -- varX *= X
  let varX4 := varX3 * X1    -- varX *= X
  let varX5 := varX4 * n ^ 2 -- varX *= n**2
  (X1, varX5)

/-- Embedding of `pow2_inplace` (err1d.py lines 210-226), buffer-state
form, returning the final `(X, varX, Y, varY)` buffers.  `T = np.log(X)`
creates a fresh buffer, computed before `X **= Y` overwrites `X`. -/
def pow2_inplace (X varX Y varY : ℝ) : ℝ × ℝ × ℝ × ℝ :=
  let varX1 := varX / X        -- varX /= X
  let varX2 := varX1 * Y       -- varX *= Y
  let varX3 := varX2 * varX2   -- varX *= varX
  let T := Real.log X          -- T = np.log(X)  (fresh buffer)
  let T1 := T * varY           -- T *= varY
  let T2 := T1 * T1            -- T *= T
  let varX4 := varX3 + T2      -- varX += T
  -- del T
  let X1 := Real.rpow X Y      -- X **= Y   (X buffer now holds Z)
  let varX5 := varX4 * X1      -- varX *= X
  let varX6 := varX5 * X1      -- varX *= X
  (X1, varX6, Y, varY)

end err1d

end

namespace err1d

/-! ### Helper lemmas on sorted lists and `searchsorted_right` -/

theorem nth_cons_zero (a : ℚ) (t : List ℚ) : nth (a :: t) 0 = a := rfl

theorem nth_cons_succ (a : ℚ) (t : List ℚ) (j : ℕ) :
    nth (a :: t) (j + 1) = nth t j := rfl

theorem nth_mem (l : List ℚ) (k : ℕ) (hk : k < l.length) : nth l k ∈ l := by
  induction l generalizing k with
  | nil => simp at hk
  | cons a t ih =>
    cases k with
    | zero => exact List.mem_cons_self a t
    | succ j =>
      exact List.mem_cons_of_mem a (ih j (by simpa using Nat.lt_of_succ_lt_succ hk))

/-- Entries strictly before the rightmost insertion point are `≤ x`. -/
theorem nth_le_of_lt_searchsorted (l : List ℚ) (x : ℚ)
    (hs : l.Sorted (· < ·)) :
    ∀ j, j < searchsorted_right l x → nth l j ≤ x := by
  induction l with
  | nil => intro j hj; simp [searchsorted_right] at hj
  | cons a t ih =>
    rcases List.sorted_cons.mp hs with ⟨ha, ht⟩
    intro j hj
    by_cases hax : a ≤ x
    · cases j with
      | zero => simpa [nth_cons_zero] using hax
      | succ m =>
        rw [nth_cons_succ]
        refine ih ht m ?_
        have : searchsorted_right (a :: t) x = searchsorted_right t x + 1 := by
          simp [searchsorted_right, List.countP_cons, hax]
        omega
    · have hzero : searchsorted_right (a :: t) x = 0 := by
        have hta : ∀ b ∈ t, ¬(b ≤ x) := fun b hb =>
          not_le.mpr (lt_trans (not_le.mp hax) (ha b hb))
        simp only [searchsorted_right, List.countP_cons]
        rw [List.countP_eq_zero.mpr (by intro b hb; simpa using hta b hb)]
        simp [hax]
      omega

/-- Entries at or after the rightmost insertion point are `> x`. -/
theorem lt_nth_of_searchsorted_le (l : List ℚ) (x : ℚ)
    (hs : l.Sorted (· < ·)) :
    ∀ j, searchsorted_right l x ≤ j → j < l.length → x < nth l j := by
  induction l with
  | nil => intro j _ hj; simp at hj
  | cons a t ih =>
    rcases List.sorted_cons.mp hs with ⟨ha, ht⟩
    intro j hj hlen
    by_cases hax : a ≤ x
    · have hcount : searchsorted_right (a :: t) x = searchsorted_right t x + 1 := by
        simp [searchsorted_right, List.countP_cons, hax]
      cases j with
      | zero => omega
      | succ m =>
        rw [nth_cons_succ]
        exact ih ht m (by omega) (by simpa using Nat.lt_of_succ_lt_succ hlen)
    · cases j with
      | zero => simpa [nth_cons_zero] using not_le.mp hax
      | succ m =>
        rw [nth_cons_succ]
        have hm : m < t.length := by simpa using Nat.lt_of_succ_lt_succ hlen
        exact lt_trans (not_le.mp hax) (ha _ (nth_mem t m hm))

/-- On a strictly sorted list the rightmost insertion point of the entry
at position `k` is `k + 1`. -/
theorem searchsorted_at_nth (l : List ℚ) (hs : l.Sorted (· < ·)) :
    ∀ k, k < l.length → searchsorted_right l (nth l k) = k + 1 := by
  induction l with
  | nil => intro k hk; simp at hk
  | cons a t ih =>
    rcases List.sorted_cons.mp hs with ⟨ha, ht⟩
    intro k hk
    cases k with
    | zero =>
      have hta : ∀ b ∈ t, ¬(b ≤ a) := fun b hb => not_le.mpr (ha b hb)
      simp only [searchsorted_right, List.countP_cons, nth_cons_zero]
      rw [List.countP_eq_zero.mpr (by intro b hb; simpa using hta b hb)]
      simp
    | succ m =>
      have hm : m < t.length := by simpa using Nat.lt_of_succ_lt_succ hk
      have hle : a ≤ nth t m := le_of_lt (ha _ (nth_mem t m hm))
      rw [nth_cons_succ]
      have := ih ht m hm
      simp only [searchsorted_right, List.countP_cons] at this ⊢
      simp [this, hle]

/-- Strict monotonicity of `nth` on a strictly sorted list. -/
theorem nth_lt_nth_of_sorted (l : List ℚ) (hs : l.Sorted (· < ·))
    (i j : ℕ) (hij : i < j) (hj : j < l.length) : nth l i < nth l j := by
  induction l generalizing i j with
  | nil => simp at hj
  | cons a t ih =>
    rcases List.sorted_cons.mp hs with ⟨ha, ht⟩
    cases j with
    | zero => omega
    | succ m =>
      have hm : m < t.length := by simpa using Nat.lt_of_succ_lt_succ hj
      cases i with
      | zero =>
        rw [nth_cons_zero, nth_cons_succ]
        exact ha _ (nth_mem t m hm)
      | succ n =>
        rw [nth_cons_succ, nth_cons_succ]
        exact ih ht n m (by omega) hm

/-- Monotonicity of `nth` on a strictly sorted list. -/
theorem nth_le_nth_of_sorted (l : List ℚ) (hs : l.Sorted (· < ·))
    (i j : ℕ) (hij : i ≤ j) (hj : j < l.length) : nth l i ≤ nth l j := by
  rcases Nat.lt_or_ge i j with h | h
  · exact le_of_lt (nth_lt_nth_of_sorted l hs i j h hj)
  · have : i = j := le_antisymm hij h
    simp [this]

/-- Monotonicity of `nth` on a non-decreasing list. -/
theorem nth_mono_of_sorted_le (l : List ℚ) (hs : l.Sorted (· ≤ ·))
    (i j : ℕ) (hij : i ≤ j) (hj : j < l.length) : nth l i ≤ nth l j := by
  induction l generalizing i j with
  | nil => simp at hj
  | cons a t ih =>
    rcases List.sorted_cons.mp hs with ⟨ha, ht⟩
    cases j with
    | zero =>
      have : i = 0 := by omega
      simp [this]
    | succ m =>
      have hm : m < t.length := by simpa using Nat.lt_of_succ_lt_succ hj
      cases i with
      | zero =>
        rw [nth_cons_zero, nth_cons_succ]
        exact ha _ (nth_mem t m hm)
      | succ n =>
        rw [nth_cons_succ, nth_cons_succ]
        exact ih ht n m (by omega) hm

/-- Length of the interior break-point array `Xp[1:-1]`. -/
theorem interior_length (Xp : List ℚ) :
    ((Xp.drop 1).dropLast).length = Xp.length - 2 := by
  rw [List.length_dropLast, List.length_drop]
  omega

/-- The interior break-point array `Xp[1:-1]` shifts indices by one. -/
theorem interior_nth (Xp : List ℚ) (j : ℕ) (hj : j < Xp.length - 2) :
    nth ((Xp.drop 1).dropLast) j = nth Xp (j + 1) := by
  have h1 : j < ((Xp.drop 1).dropLast).length := by rw [interior_length]; exact hj
  have h3 : j + 1 < Xp.length := by omega
  rw [nth, nth, List.getD_eq_getElem _ _ h1, List.getD_eq_getElem _ _ h3]
  rw [List.getElem_dropLast, List.getElem_drop]
  congr 1
  omega

/-- Sortedness is inherited by the interior break-point array. -/
theorem interior_sorted (Xp : List ℚ) (hs : Xp.Sorted (· < ·)) :
    ((Xp.drop 1).dropLast).Sorted (· < ·) := by
  have h1 : List.Sublist ((Xp.drop 1).dropLast) (Xp.drop 1) :=
    List.dropLast_sublist _
  have h2 : List.Sublist (Xp.drop 1) Xp := List.drop_sublist _ _
  exact List.Pairwise.sublist (h1.trans h2) hs

/-- When the query is inside the table range neither override mask
fires and `interp` returns the linear formula at the located index. -/
theorem interp_in_range (x : ℚ) (Xp Fp varFp : List ℚ) (idx : ℕ) (p : ℚ)
    (hidx : idx = searchsorted_right ((Xp.drop 1).dropLast) x)
    (hp : p = (nth Xp (idx+1) - x) / (nth Xp (idx+1) - nth Xp idx))
    (h1 : ¬ (nth Xp (Xp.length - 1) < x)) (h2 : ¬ (x < nth Xp 0)) :
    interp x Xp Fp varFp none none =
      (p * nth Fp idx + (1 - p) * nth Fp (idx+1),
       p ^ 2 * nth varFp idx + (1 - p) ^ 2 * nth varFp (idx+1)) := by
  subst hp
  subst hidx
  unfold interp
  simp only [if_neg h1, if_neg h2]

/-! ### Theorems for the interpolation claims -/

/-- C3: for a strictly increasing table (monotonically non-decreasing
with distinct points) and an in-range query `x`, `interp` locates the
bracketing interval by the rightmost insertion point `idx` over the
interior break points `Xp[1:-1]` (so `Xp[idx] ≤ x ≤ Xp[idx+1]`) and
returns value `p*Fp[idx] + (1-p)*Fp[idx+1]` and variance
`p^2*varFp[idx] + (1-p)^2*varFp[idx+1]` with
`p = (Xp[idx+1]-x)/(Xp[idx+1]-Xp[idx])`; moreover a query at an
interior table abscissa `Xp[i]` returns exactly `(Fp[i], varFp[i])`. -/
theorem interp_bracket_exact (Xp Fp varFp : List ℚ) (x : ℚ) (idx : ℕ) (p : ℚ)
    (hs : Xp.Sorted (· < ·)) (hn : 2 ≤ Xp.length)
    (hlo : nth Xp 0 ≤ x) (hhi : x ≤ nth Xp (Xp.length - 1))
    (hidx : idx = searchsorted_right ((Xp.drop 1).dropLast) x)
    (hp : p = (nth Xp (idx+1) - x) / (nth Xp (idx+1) - nth Xp idx)) :
    (nth Xp idx ≤ x ∧ x ≤ nth Xp (idx+1)) ∧
    interp x Xp Fp varFp none none =
      (p * nth Fp idx + (1 - p) * nth Fp (idx+1),
       p ^ 2 * nth varFp idx + (1 - p) ^ 2 * nth varFp (idx+1)) ∧
    (∀ i, 1 ≤ i → i + 1 < Xp.length →
      interp (nth Xp i) Xp Fp varFp none none = (nth Fp i, nth varFp i)) := by
  have hsI := interior_sorted Xp hs
  have hlenI := interior_length Xp
  have hmax : searchsorted_right ((Xp.drop 1).dropLast) x ≤ Xp.length - 2 := by
    have h := List.countP_le_length (fun y => decide (y ≤ x))
      (l := (Xp.drop 1).dropLast)
    rw [hlenI] at h
    exact h
  subst hp
  subst hidx
  set m := searchsorted_right ((Xp.drop 1).dropLast) x with hm
  refine ⟨⟨?_, ?_⟩, ?_, ?_⟩
  · -- the located index brackets the query from below
    rcases Nat.eq_zero_or_pos m with h0 | hpos
    · rw [h0]; exact hlo
    · obtain ⟨k, hk⟩ : ∃ k, m = k + 1 := ⟨m - 1, by omega⟩
      have hcount : k < searchsorted_right ((Xp.drop 1).dropLast) x := by
        rw [← hm]; omega
      have hklen : k < Xp.length - 2 := by omega
      have hle := nth_le_of_lt_searchsorted _ x hsI k hcount
      rw [interior_nth Xp k hklen] at hle
      rw [hk]
      exact hle
  · -- the located index brackets the query from above
    rcases Nat.lt_or_ge m (Xp.length - 2) with hc | hc
    · have hgt := lt_nth_of_searchsorted_le _ x hsI m (by rw [← hm])
        (by rw [hlenI]; exact hc)
      rw [interior_nth Xp m hc] at hgt
      exact le_of_lt hgt
    · have hme : m = Xp.length - 2 := le_antisymm hmax hc
      have hidx1 : m + 1 = Xp.length - 1 := by omega
      rw [hidx1]
      exact hhi
  · -- the interpolation formula at the located index
    exact interp_in_range x Xp Fp varFp m _ hm rfl
      (not_lt.mpr hhi) (not_lt.mpr hlo)
  · -- exactness at interior table points
    intro i h1 h2
    obtain ⟨j, rfl⟩ : ∃ j, i = j + 1 := ⟨i - 1, by omega⟩
    have hjlen : j < Xp.length - 2 := by omega
    have hidxD : searchsorted_right ((Xp.drop 1).dropLast) (nth Xp (j+1)) = j + 1 := by
      have h := searchsorted_at_nth _ hsI j (by rw [hlenI]; exact hjlen)
      rw [interior_nth Xp j hjlen] at h
      exact h
    have hlt : nth Xp (j+1) < nth Xp (j+1+1) :=
      nth_lt_nth_of_sorted Xp hs (j+1) (j+1+1) (by omega) (by omega)
    have hne : nth Xp (j+1+1) - nth Xp (j+1) ≠ 0 :=
      sub_ne_zero.mpr (ne_of_gt hlt)
    have hx1 : ¬ (nth Xp (Xp.length - 1) < nth Xp (j+1)) :=
      not_lt.mpr (nth_le_nth_of_sorted Xp hs (j+1) (Xp.length - 1)
        (by omega) (by omega))
    have hx2 : ¬ (nth Xp (j+1) < nth Xp 0) :=
      not_lt.mpr (nth_le_nth_of_sorted Xp hs 0 (j+1) (by omega) (by omega))
    have hmain := interp_in_range (nth Xp (j+1)) Xp Fp varFp (j+1) _
      hidxD.symm rfl hx1 hx2
    rw [hmain]
    rw [div_self hne]
    exact Prod.ext (by ring) (by ring)

/-- Witness for C3: for the table `Xp = [0,2,4,6]`, `Fp = [10,20,30,40]`,
`varFp = [1,2,3,4]` and the query `x = 3`, the located index is 1,
`p = 1/2`, and `interp` returns `(25, 5/4)`. -/
theorem interp_bracket_exact_witness :
    interp 3 [0,2,4,6] [10,20,30,40] [1,2,3,4] none none = (25, 5/4) := by
  have h := (interp_bracket_exact [0,2,4,6] [10,20,30,40] [1,2,3,4] 3 1 (1/2)
    (by decide) (by decide) (by norm_num [nth]) (by norm_num [nth])
    (by decide) (by norm_num [nth])).2.1
  exact h.trans (by norm_num [nth, Prod.ext_iff])

/-- C4: for query points below `Xp[0]`, `interp` returns
`(Fp[0], varFp[0])` when `left` is `None` and exactly the pair `(v, e)`
when `left = (v, e)`; symmetrically for query points above `Xp[-1]`
with `right`. -/
theorem interp_extrapolation (Xp Fp varFp : List ℚ) (x v e : ℚ)
    (hs : Xp.Sorted (· ≤ ·)) (hn : 1 ≤ Xp.length) :
    (x < nth Xp 0 →
      interp x Xp Fp varFp none none = (nth Fp 0, nth varFp 0) ∧
      interp x Xp Fp varFp (some (v, e)) none = (v, e)) ∧
    (nth Xp (Xp.length - 1) < x →
      interp x Xp Fp varFp none none =
        (nth Fp (Fp.length - 1), nth varFp (varFp.length - 1)) ∧
      interp x Xp Fp varFp none (some (v, e)) = (v, e)) := by
  constructor
  · intro h
    have hnot : ¬ (nth Xp (Xp.length - 1) < x) :=
      not_lt.mpr (le_of_lt (lt_of_lt_of_le h
        (nth_mono_of_sorted_le Xp hs 0 (Xp.length - 1) (by omega) (by omega))))
    constructor
    · simp only [interp]
      rw [if_neg hnot, if_pos h]
      rfl
    · simp only [interp]
      rw [if_neg hnot, if_pos h]
      rfl
  · intro h
    constructor
    · simp only [interp]
      rw [if_pos h]
      rfl
    · simp only [interp]
      rw [if_pos h]
      rfl

/-- Witness for C4: for the table `Xp = [1,2]`, `Fp = [5,6]`,
`varFp = [3,4]` and the query `x = 0 < Xp[0]`, `interp` with no `left`
override returns `(5, 3)` and with `left = (7, 9)` returns `(7, 9)`. -/
theorem interp_extrapolation_witness :
    interp 0 [1,2] [5,6] [3,4] none none = (nth [5,6] 0, nth [3,4] 0) ∧
    interp 0 [1,2] [5,6] [3,4] (some (7, 9)) none = (7, 9) :=
  (interp_extrapolation [1,2] [5,6] [3,4] 0 7 9 (by decide) (by decide)).1
    (by norm_num [nth])

end err1d

namespace err1d

/-! ### Theorems for the arithmetic operator claims -/

/-- C2: for nonzero Y, `div` returns value `Z = X/Y` and variance
`(varX + varY*Z^2)/Y^2`; at `(6, 0.04, 2, 0.01)` this is `(3, 0.0325)`
(see the witness). -/
theorem div_spec (X varX Y varY : ℚ) (_hY : Y ≠ 0) :
    div X varX Y varY = (X / Y, (varX + varY * (X / Y) ^ 2) / Y ^ 2) := by
  unfold div
  exact Prod.ext rfl (by ring)

/-- Witness for C2: `div 6 0.04 2 0.01 = (3, 0.0325)` with `0.04 = 1/25`,
`0.01 = 1/100`, `0.0325 = 13/400`. -/
theorem div_spec_witness :
    div 6 (1/25) 2 (1/100) = (3, 13/400) ∧ (2:ℚ) ≠ 0 :=
  ⟨(div_spec 6 (1/25) 2 (1/100) (by norm_num : (2:ℚ) ≠ 0)).trans
     (by norm_num [Prod.ext_iff]),
   by norm_num⟩

/-- C5: `add` and `mul` are commutative in their paired operands, in
both the value and the variance component. -/
theorem add_mul_comm_pairs (X varX Y varY : ℚ) :
    add X varX Y varY = add Y varY X varX ∧
    mul X varX Y varY = mul Y varY X varX := by
  constructor
  · unfold add; exact Prod.ext (by ring) (by ring)
  · unfold mul; exact Prod.ext (by ring) (by ring)

/-- C1: at the all-positive input `X=2, varX=1, Y=3, varY=1/100` the
value returned by `mul_inplace` is `X^2*varY*Y = 3/25 = 0.12`, while
`mul` returns `X*Y = 6`: the aliasing sequence `T = X; T **= 2;
T *= varY` clobbers the `X` buffer before `X *= Y` runs, so the
in-place family is not equivalent to the out-of-place family at `mul`
(for the other five operator pairs the equivalence does hold, see
`add_sub_div_inplace_equiv` and `pow_pow2_inplace_equiv`). -/
theorem mul_inplace_differs :
    (mul_inplace 2 1 3 (1/100)).1 = 3/25 ∧
    (mul 2 1 3 (1/100)).1 = 6 ∧ (3/25 : ℚ) ≠ 6 := by
  refine ⟨by norm_num [mul_inplace], by norm_num [mul], by norm_num⟩

/-- C10: for nonzero Y, `div_inplace` leaves the four buffers holding
`(X/Y, (varX + varY*(X/Y)^2)/Y^2, Y^2, varY)`: the returned `X`/`varX`
hold the quotient and the propagated variance, the `Y` buffer has been
overwritten with `Y^2` (it is reused as scratch for the denominator),
and `varY` is unmodified. -/
theorem div_inplace_frame (X varX Y varY : ℚ) (_hY : Y ≠ 0) :
    div_inplace X varX Y varY =
      (X / Y, (varX + varY * (X / Y) ^ 2) / Y ^ 2, Y ^ 2, varY) := by
  unfold div_inplace
  exact Prod.ext rfl (Prod.ext (by ring) rfl)

/-- Witness for C10: `div_inplace 6 (1/25) 2 (1/100)` leaves the buffers
holding `(3, 13/400, 4, 1/100)`. -/
theorem div_inplace_frame_witness :
    div_inplace 6 (1/25) 2 (1/100) = (3, 13/400, 4, 1/100) ∧ (2:ℚ) ≠ 0 :=
  ⟨(div_inplace_frame 6 (1/25) 2 (1/100) (by norm_num : (2:ℚ) ≠ 0)).trans
     (by norm_num [Prod.ext_iff]),
   by norm_num⟩

/-- Equivalence of the exact in-place variants `add_inplace`,
`sub_inplace` and `div_inplace` with their out-of-place counterparts,
in both returned components (supporting fact for the in-place family). -/
theorem add_sub_div_inplace_equiv (X varX Y varY : ℚ) :
    (add_inplace X varX Y varY).1 = (add X varX Y varY).1 ∧
    (add_inplace X varX Y varY).2.1 = (add X varX Y varY).2 ∧
    (sub_inplace X varX Y varY).1 = (sub X varX Y varY).1 ∧
    (sub_inplace X varX Y varY).2.1 = (sub X varX Y varY).2 ∧
    (div_inplace X varX Y varY).1 = (div X varX Y varY).1 ∧
    (div_inplace X varX Y varY).2.1 = (div X varX Y varY).2 := by
  refine ⟨rfl, rfl, rfl, rfl, rfl, ?_⟩
  unfold div_inplace div
  ring

/-- Equivalence of `pow_inplace` and `pow2_inplace` with their
out-of-place counterparts (supporting fact for the in-place family). -/
theorem pow_pow2_inplace_equiv (X varX Y varY n : ℝ) :
    pow_inplace X varX n = pow X varX n ∧
    (pow2_inplace X varX Y varY).1 = (pow2 X varX Y varY).1 ∧
    (pow2_inplace X varX Y varY).2.1 = (pow2 X varX Y varY).2 :=
  ⟨rfl, rfl, rfl⟩

/-! ### Theorems for the transcendental operator claims -/

/-- C6: for nonzero X, `pow` returns value `Z = X^n` and variance
`n^2*varX*Z^2/X^2`; at `([2.0], [0.01], 3)` this is `(8, 1.44)`
(see the witness). -/
theorem pow_spec (X varX n : ℝ) (_hX : X ≠ 0) :
    pow X varX n =
      (Real.rpow X n, n ^ 2 * varX * Real.rpow X n ^ 2 / X ^ 2) := by
  unfold pow
  exact Prod.ext rfl (by ring)

/-- Witness for C6: `pow 2 0.01 3 = (8, 1.44)` with `0.01 = 1/100`,
`1.44 = 36/25`. -/
theorem pow_spec_witness :
    pow 2 (1/100) 3 = (8, 36/25) ∧ (2:ℝ) ≠ 0 := by
  have h8 : Real.rpow 2 (3:ℝ) = 8 := by
    rw [show (3:ℝ) = ((3:ℕ):ℝ) by norm_num]
    rw [show Real.rpow 2 ((3:ℕ):ℝ) = (2:ℝ) ^ ((3:ℕ):ℝ) from rfl]
    rw [Real.rpow_natCast]
    norm_num
  constructor
  · rw [pow_spec 2 (1/100) 3 (by norm_num)]
    rw [h8]
    norm_num [Prod.ext_iff]
  · norm_num

/-- C7: the unary operators `exp`, `log`, `sin`, `cos`, `arctan` return
the function value paired with the variance of their table row; `tan`,
`arcsin` and `arccos` never return at all (`np.sec` does not exist in
numpy and the name `x` is undefined), so they do not return the claimed
pairs. -/
theorem unary_table_and_defects (X varX : ℝ) :
    exp X varX = (Real.exp X, varX * Real.exp X ^ 2) ∧
    log X varX = (Real.log X, varX / X ^ 2) ∧
    sin X varX = (Real.sin X, varX * Real.cos X ^ 2) ∧
    cos X varX = (Real.cos X, varX * Real.sin X ^ 2) ∧
    arctan X varX = (Real.arctan X, varX / (1 + X ^ 2) ^ 2) ∧
    tan X varX = none ∧ arcsin X varX = none ∧ arccos X varX = none :=
  ⟨rfl, rfl, rfl, rfl, rfl, rfl, rfl, rfl⟩

/-- C8: for non-negative input variances the operators that actually
compute (`add`, `sub`, `mul`, `div`, `pow`, `pow2`, `exp`, `log`,
`sin`, `cos`, `arctan`) all yield a non-negative output variance, but
`tan`, `arcsin`, `arccos` and `arctan2` yield no variance at all: they
raise before returning, even at in-domain inputs with non-negative
variances. -/
theorem variance_nonneg_and_defects (X varX Y varY : ℚ)
    (A varA B varB n : ℝ)
    (hvX : 0 ≤ varX) (hvY : 0 ≤ varY) (hvA : 0 ≤ varA) (hvB : 0 ≤ varB) :
    (0 ≤ (add X varX Y varY).2 ∧ 0 ≤ (sub X varX Y varY).2 ∧
     0 ≤ (mul X varX Y varY).2 ∧ 0 ≤ (div X varX Y varY).2 ∧
     0 ≤ (pow A varA n).2 ∧ 0 ≤ (pow2 A varA B varB).2 ∧
     0 ≤ (exp A varA).2 ∧ 0 ≤ (log A varA).2 ∧
     0 ≤ (sin A varA).2 ∧ 0 ≤ (cos A varA).2 ∧ 0 ≤ (arctan A varA).2) ∧
    (tan A varA = none ∧ arcsin A varA = none ∧ arccos A varA = none ∧
     arctan2 A varA B varB = none) := by
  refine ⟨⟨?_, ?_, ?_, ?_, ?_, ?_, ?_, ?_, ?_, ?_, ?_⟩, rfl, rfl, rfl, rfl⟩
  · exact add_nonneg hvX hvY
  · exact add_nonneg hvX hvY
  · exact add_nonneg (mul_nonneg (sq_nonneg Y) hvX) (mul_nonneg (sq_nonneg X) hvY)
  · exact div_nonneg (add_nonneg (mul_nonneg (sq_nonneg (X / Y)) hvY) hvX)
      (sq_nonneg Y)
  · have h : (pow A varA n).2 = varA * (Real.rpow A n / A * n) ^ 2 := by
      unfold pow; ring
    rw [h]
    exact mul_nonneg hvA (sq_nonneg _)
  · have h : (pow2 A varA B varB).2 =
        ((varA / A * B) ^ 2 + (Real.log A * varB) ^ 2) * Real.rpow A B ^ 2 := by
      unfold pow2; ring
    rw [h]
    exact mul_nonneg (add_nonneg (sq_nonneg _) (sq_nonneg _)) (sq_nonneg _)
  · exact mul_nonneg hvA (sq_nonneg _)
  · exact div_nonneg hvA (sq_nonneg A)
  · exact mul_nonneg hvA (sq_nonneg _)
  · exact mul_nonneg hvA (sq_nonneg _)
  · exact div_nonneg hvA (sq_nonneg _)

/-- Witness for C8: concrete instantiation at non-negative variances. -/
theorem variance_nonneg_and_defects_witness :
    0 ≤ (div 6 (1/25) 2 (1/100)).2 ∧ tan 1 1 = none :=
  ⟨(variance_nonneg_and_defects 6 (1/25) 2 (1/100) 1 1 1 1 2
      (by norm_num) (by norm_num) (by norm_num) (by norm_num)).1.2.2.2.1,
   (variance_nonneg_and_defects 6 (1/25) 2 (1/100) 1 1 1 1 2
      (by norm_num) (by norm_num) (by norm_num) (by norm_num)).2.1⟩

/-- C9: on mathematically invalid inputs `arcsin` and `arccos` do not
return a `(value, variance)` pair with floating-point special values:
they raise `NameError` before returning (the body references the
undefined name `x`), here at the out-of-domain argument `X = 2`. -/
theorem invalid_domain_raises :
    arcsin 2 (1/100) = none ∧ arccos 2 (1/100) = none :=
  ⟨rfl, rfl⟩

end err1d
